import Mathlib

/-!
# Verification of the DOM element identity / history-matching subsystem

Shallow embedding of `browser_use/dom/history_tree_processor.py` and of the
agent ledger operations in `browser_use/agent/views.py`.

Modelling conventions:
* A live `DOMElementNode` is an inductive tree; `children` holds the element
  children (the Python code filters children with
  `isinstance(child, DOMElementNode)`, so text nodes never participate in the
  algorithms embedded here).
* The Python `parent` back-pointer of a node is represented by an explicit
  ancestor chain: a list `node :: ancestors`, nearest ancestor first, the tree
  root last.  `current_element.parent is None` corresponds to the chain having
  an empty tail.
* `hashlib.sha256(s.encode()).hexdigest()` is modelled by an injective
  function on the hash-input string (we represent a digest by its pre-image).
  Digest equality then coincides with hash-input equality, which matches the
  source's intended reading: the design accepts that matching is exactly
  hash-input equality, and no claim here rests on a SHA-256 digest collision.
-/

/-- One element of the live DOM tree (`browser_use/dom/views.py::DOMElementNode`
as used by the history tree processor).  Attributes are an insertion-ordered
association list, matching Python dict iteration order. -/
inductive DOMElementNode where
  | mk (tag_name : String) (xpath : String) (highlight_index : Option Nat)
       (attributes : List (String × String)) (shadow_root : Bool)
       (children : List DOMElementNode)

namespace DOMElementNode

def tag_name : DOMElementNode → String
  | .mk t _ _ _ _ _ => t

def xpath : DOMElementNode → String
  | .mk _ x _ _ _ _ => x

def highlight_index : DOMElementNode → Option Nat
  | .mk _ _ hi _ _ _ => hi

def attributes : DOMElementNode → List (String × String)
  | .mk _ _ _ a _ _ => a

def shadow_root : DOMElementNode → Bool
  | .mk _ _ _ _ sr _ => sr

def children : DOMElementNode → List DOMElementNode
  | .mk _ _ _ _ _ cs => cs

end DOMElementNode

/-- Python `hashlib.sha256(s.encode()).hexdigest()`, modelled as an injective function
of the hash-input string: the digest is represented by its pre-image. -/
def sha256_hexdigest (s : String) : String := s

/-- Python `'/'.join(xs)` for a list of strings. -/
def joinSlash : List String → String
  | [] => ""
  | [s] => s
  | s :: rest => s ++ "/" ++ joinSlash rest

/-- Python `''.join(xs)` for a list of strings. -/
def joinEmpty : List String → String
  | [] => ""
  | s :: rest => s ++ joinEmpty rest

/-- Structure `HashedDomElement` from `history_tree_processor.py`: the pair of digests
used as an element's identity. -/
structure HashedDomElement where
  branch_path_hash : String
  attributes_hash : String
deriving DecidableEq, Repr

/-- Structure `DOMHistoryElement` from `history_tree_processor.py`: the durable snapshot
of an element. -/
structure DOMHistoryElement where
  tag_name : String
  xpath : String
  highlight_index : Option Nat
  entire_parent_branch_path : List String
  attributes : List (String × String)
  shadow_root : Bool
deriving DecidableEq, Repr

namespace HistoryTreeProcessor

/-- The `while current_element.parent is not None` loop of
`_get_parent_branch_path`, run over the parent chain `node :: ancestors`
(root last): it collects every visited node whose parent exists, i.e. every
node of the chain except the root. -/
def collectUpward : List DOMElementNode → List DOMElementNode
  | [] => []
  | [_] => []
  | e :: rest => e :: collectUpward rest

/-- Embedding of `HistoryTreeProcessor._get_parent_branch_path`: walk the parent chain
collecting nodes while the parent exists, reverse, and keep tag names.
`chain` is the node followed by its ancestors, root last. -/
def _get_parent_branch_path (chain : List DOMElementNode) : List String :=
  ((collectUpward chain).reverse).map DOMElementNode.tag_name

/-- Embedding of `HistoryTreeProcessor._parent_branch_path_hash`. -/
def _parent_branch_path_hash (parent_branch_path : List String) : String :=
  sha256_hexdigest (joinSlash parent_branch_path)

/-- The hash-input string of `_attributes_hash`:
`''.join(f'{key}={value}' for key, value in attributes.items())`. -/
def attributesString (attributes : List (String × String)) : String :=
  joinEmpty (attributes.map (fun kv => kv.1 ++ "=" ++ kv.2))

/-- Embedding of `HistoryTreeProcessor._attributes_hash`. -/
def _attributes_hash (attributes : List (String × String)) : String :=
  sha256_hexdigest (attributesString attributes)

/-- Embedding of `HistoryTreeProcessor.convert_dom_element_to_history_element`, for the
element `node` whose parent chain tail is `ancestors`. -/
def convert_dom_element_to_history_element
    (node : DOMElementNode) (ancestors : List DOMElementNode) : DOMHistoryElement :=
  { tag_name := node.tag_name
    xpath := node.xpath
    highlight_index := node.highlight_index
    entire_parent_branch_path := _get_parent_branch_path (node :: ancestors)
    attributes := node.attributes
    shadow_root := node.shadow_root }

/-- Embedding of `HistoryTreeProcessor._hash_dom_history_element`. -/
def _hash_dom_history_element (dhe : DOMHistoryElement) : HashedDomElement :=
  { branch_path_hash := _parent_branch_path_hash dhe.entire_parent_branch_path
    attributes_hash := _attributes_hash dhe.attributes }

/-- Embedding of `HistoryTreeProcessor._hash_dom_element`, for the element `node` whose
parent chain tail is `ancestors`. -/
def _hash_dom_element
    (node : DOMElementNode) (ancestors : List DOMElementNode) : HashedDomElement :=
  { branch_path_hash := _parent_branch_path_hash (_get_parent_branch_path (node :: ancestors))
    attributes_hash := _attributes_hash node.attributes }

/-- Embedding of `HistoryTreeProcessor.compare_history_element_and_dom_element`. -/
def compare_history_element_and_dom_element
    (dhe : DOMHistoryElement) (node : DOMElementNode) (ancestors : List DOMElementNode) : Bool :=
  decide (_hash_dom_history_element dhe = _hash_dom_element node ancestors)

mutual
/-- Inner `process_node` from `HistoryTreeProcessor.find_history_element_in_tree`:
check the node itself first, then recurse over its children in order.
`ancestors` is the parent chain context of `node`. -/
def processNode (target : HashedDomElement) (ancestors : List DOMElementNode) :
    DOMElementNode → Option DOMElementNode
  | .mk t x hi attrs sr cs =>
    let node : DOMElementNode := .mk t x hi attrs sr cs
    let hit : Option DOMElementNode :=
      if hi.isSome then
        if _hash_dom_element node ancestors = target then some node else none
      else none
    match hit with
    | some n => some n
    | none => processChildren target (node :: ancestors) cs

/-- The `for child in node.children` loop of `process_node` (text-node
children have already been excluded by the `isinstance` check). -/
def processChildren (target : HashedDomElement) (ancestors : List DOMElementNode) :
    List DOMElementNode → Option DOMElementNode
  | [] => none
  | c :: rest =>
    match processNode target ancestors c with
    | some r => some r
    | none => processChildren target ancestors rest
end

/-- Embedding of `HistoryTreeProcessor.find_history_element_in_tree`. -/
def find_history_element_in_tree
    (dom_history_element : DOMHistoryElement) (tree : DOMElementNode) : Option DOMElementNode :=
  processNode (_hash_dom_history_element dom_history_element) [] tree

mutual
/-- Pre-order (document-order) traversal of a tree, pairing each node with its
ancestor chain context.  Specification-side description of `tree.walk()` used
to characterise `find_history_element_in_tree`. -/
def preorder (ancestors : List DOMElementNode) :
    DOMElementNode → List (DOMElementNode × List DOMElementNode)
  | .mk t x hi attrs sr cs =>
    let node : DOMElementNode := .mk t x hi attrs sr cs
    (node, ancestors) :: preorderList (node :: ancestors) cs

/-- Pre-order traversal of a forest. -/
def preorderList (ancestors : List DOMElementNode) :
    List DOMElementNode → List (DOMElementNode × List DOMElementNode)
  | [] => []
  | c :: rest => preorder ancestors c ++ preorderList ancestors rest
end

/-- The match predicate of `find_history_element_in_tree`: the node carries a
highlight index and its hashed identity equals the target. -/
def matchesTarget (target : HashedDomElement)
    (p : DOMElementNode × List DOMElementNode) : Bool :=
  p.1.highlight_index.isSome && decide (_hash_dom_element p.1 p.2 = target)

/-- Specification-side definition, following the spec's words only:
`ancestor_path(node) -> ordered sequence of tag names from the tree root down
to (but excluding) node itself`.  On the chain `node :: ancestors` (root last)
this is the reversed tail, mapped to tag names. -/
def specAncestorPath (chain : List DOMElementNode) : List String :=
  ((chain.drop 1).reverse).map DOMElementNode.tag_name

end HistoryTreeProcessor

/-! ## The agent ledger (`browser_use/agent/views.py`) -/

/-- Structure `ActionResult` from `agent/views.py`.  `is_done`, `extracted_content` and
`error` are `Optional` in the source; `none` stands for Python `None`. -/
structure ActionResult where
  is_done : Option Bool
  extracted_content : Option String
  error : Option String
  include_in_memory : Bool
deriving DecidableEq, Repr

/-- Structure `AgentBrain` from `agent/views.py`. -/
structure AgentBrain where
  valuation_previous_goal : String
  memory : String
  next_goal : String
deriving DecidableEq, Repr

/-- The dynamically created `ActionModel` lives in
`browser_use/controller/registry/views.py`, which is not part of the sources
here; all the ledger operations use of an action is
`model_dump(exclude_none=True)`.  Modelled from the spec: a decision's action
is a record whose serialized form is an insertion-ordered mapping from action
name to serialized parameters; `dump` is that serialized form. -/
structure ActionModel where
  dump : List (String × String)
deriving DecidableEq, Repr

/-- Structure `AgentOutput` from `agent/views.py`. -/
structure AgentOutput where
  current_state : AgentBrain
  action : ActionModel
deriving DecidableEq, Repr

/-- Structure `BrowserStateHistory` (from `browser/views.py`, not in the sources): the
page-state record stored in a ledger entry.  Only the fields the ledger
operations read are modelled; `interacted_element` is kept opaque as an
optional serialized payload. -/
structure BrowserStateHistory where
  url : String
  screenshot : Option String
  interacted_element : Option String
deriving DecidableEq, Repr

/-- Structure `AgentHistory` from `agent/views.py`: one ledger entry. -/
structure AgentHistory where
  model_output : Option AgentOutput
  result : ActionResult
  state : BrowserStateHistory
deriving DecidableEq, Repr

/-- Structure `AgentHistoryList` from `agent/views.py`. -/
structure AgentHistoryList where
  history : List AgentHistory
deriving DecidableEq, Repr

/-- Python truthiness of an `Optional[str]`: `None` and `''` are falsy. -/
def optStrTruthy : Option String → Bool
  | none => false
  | some s => !(s == "")

/-- Python truthiness of an `Optional[bool]`: `None` and `False` are falsy. -/
def optBoolTruthy : Option Bool → Bool
  | none => false
  | some b => b

namespace AgentHistoryList

/-- Embedding of `AgentHistoryList.errors`:
`[h.result.error for h in self.history if h.result.error]` — the guard is
Python truthiness of the optional string. -/
def errors (l : AgentHistoryList) : List String :=
  l.history.filterMap (fun h =>
    if optStrTruthy h.result.error then h.result.error else none)

/-- Embedding of `AgentHistoryList.is_done`:
`if self.history and self.history[-1].result.is_done: return
self.history[-1].result.is_done` then `return False`. -/
def is_done (l : AgentHistoryList) : Bool :=
  match l.history.getLast? with
  | none => false
  | some h =>
    if optBoolTruthy h.result.is_done then h.result.is_done.getD false else false

/-- Embedding of `AgentHistoryList.model_actions`: for each entry with a (truthy, i.e.
non-`None`) `model_output`, the action's `model_dump(exclude_none=True)`. -/
def model_actions (l : AgentHistoryList) : List (List (String × String)) :=
  l.history.filterMap (fun h => h.model_output.map (fun mo => mo.action.dump))

/-- Embedding of `AgentHistoryList.action_names`:
`[list(action.keys())[0] for action in self.model_actions()]`.  The `[0]`
index raises `IndexError` on an empty mapping; the partiality is modelled by
`Option`, `none` standing for the raised fault. -/
def action_names (l : AgentHistoryList) : Option (List String) :=
  (l.model_actions).mapM (fun action => (action.map Prod.fst).head?)

end AgentHistoryList

/-! ### Deserialization (`AgentHistoryList.load_from_file`)

The raw JSON document is modelled entry by entry.  A raw `model_output` field
is `none` for JSON `null`, a structured mapping, or some other (truthy)
non-mapping JSON value. -/

/-- The mapping form of a raw `model_output`:
`{ "current_state": {...}, "action": {...} }`.  The action part is the
serialized mapping from action name to parameters. -/
structure RawModelOutputDict where
  current_state : AgentBrain
  action : List (String × String)
deriving DecidableEq, Repr

/-- A raw, truthy `model_output` JSON value: either a mapping or not. -/
inductive RawModelOutput where
  | dict (d : RawModelOutputDict)
  | nonDict
deriving DecidableEq, Repr

/-- The raw `state` record of an entry; the outer `Option` on
`interacted_element` is `none` when the key is absent from the file. -/
structure RawState where
  url : String
  screenshot : Option String
  interacted_element : Option (Option String)
deriving DecidableEq, Repr

/-- One raw entry of the persisted ledger document. -/
structure RawEntry where
  model_output : Option RawModelOutput
  result : ActionResult
  state : RawState
deriving DecidableEq, Repr

/-- The `if 'interacted_element' not in h['state']` defaulting in
`load_from_file`: a missing key becomes `None`. -/
def loadState (r : RawState) : BrowserStateHistory :=
  { url := r.url
    screenshot := r.screenshot
    interacted_element := r.interacted_element.getD none }

/-- Modelled from the spec: pydantic re-validation
`output_model.model_validate(h['model_output'])` against the caller-supplied
decision schema.  The dynamic `AgentOutput` subclass is built from the
`ActionModel` registry in `browser_use/controller/registry/views.py`, which is
not part of the sources; per the spec the schema is "the set of currently
registered executable action shapes", and a record whose action does not match
any registered shape is a `SchemaMismatch` — pydantic signals this by raising
a `ValidationError` (`agent/views.py` imports `ValidationError` and
`AgentError` formats it).  `schema` is the list of registered action names. -/
def validateAgentOutput (schema : List String) (d : RawModelOutputDict) :
    Except String AgentOutput :=
  if d.action.all (fun kv => schema.contains kv.1) then
    .ok { current_state := d.current_state, action := { dump := d.action } }
  else
    .error "ValidationError"

/-- The body of the `for h in data['history']` loop of
`AgentHistoryList.load_from_file`, processing one raw entry with the given
validator: a truthy mapping `model_output` is replaced by the result of
validation (a raised `ValidationError` propagates, failing the load); a truthy
non-mapping is replaced by `None`; `None` is left as is. -/
def load_entry (validate : RawModelOutputDict → Except String AgentOutput)
    (h : RawEntry) : Except String AgentHistory :=
  match h.model_output with
  | none => .ok { model_output := none, result := h.result, state := loadState h.state }
  | some (.dict d) =>
    (validate d).map (fun mo =>
      { model_output := some mo, result := h.result, state := loadState h.state })
  | some .nonDict => .ok { model_output := none, result := h.result, state := loadState h.state }

/-- The `for h in data['history']` loop of `load_from_file`: entries are
processed in order and a raised fault at any entry aborts the whole loop. -/
def load_entries (validate : RawModelOutputDict → Except String AgentOutput) :
    List RawEntry → Except String (List AgentHistory)
  | [] => .ok []
  | h :: rest =>
    match load_entry validate h with
    | .error e => .error e
    | .ok entry => (load_entries validate rest).map (entry :: ·)

/-- Embedding of `AgentHistoryList.load_from_file` (file I/O elided): process every raw
entry in order, then assemble the ledger. -/
def load_from_file (validate : RawModelOutputDict → Except String AgentOutput)
    (data : List RawEntry) : Except String AgentHistoryList :=
  (load_entries validate data).map AgentHistoryList.mk

/-! ## Helper lemmas -/

namespace HistoryTreeProcessor

theorem collectUpward_eq_dropLast :
    (chain : List DOMElementNode) → collectUpward chain = chain.dropLast
  | [] => rfl
  | [_] => rfl
  | x :: y :: rest => by
    rw [show collectUpward (x :: y :: rest) = x :: collectUpward (y :: rest) from rfl,
      collectUpward_eq_dropLast (y :: rest), List.dropLast_cons₂]

theorem get_parent_branch_path_eq_dropLast (chain : List DOMElementNode) :
    _get_parent_branch_path chain = (chain.dropLast.reverse).map DOMElementNode.tag_name := by
  rw [_get_parent_branch_path, collectUpward_eq_dropLast]

/-- Hashing a freshly converted snapshot gives back the element's own hashed
identity. -/
theorem hash_convert (node : DOMElementNode) (ancestors : List DOMElementNode) :
    _hash_dom_history_element (convert_dom_element_to_history_element node ancestors)
      = _hash_dom_element node ancestors := rfl

mutual
theorem processNode_eq (target : HashedDomElement) (anc : List DOMElementNode) :
    (n : DOMElementNode) →
      processNode target anc n = ((preorder anc n).find? (matchesTarget target)).map Prod.fst
  | .mk t x hi attrs sr cs => by
    have ih := processChildren_eq target ((DOMElementNode.mk t x hi attrs sr cs) :: anc) cs
    rw [show processNode target anc (.mk t x hi attrs sr cs)
        = (match (if hi.isSome then
              if _hash_dom_element (.mk t x hi attrs sr cs) anc = target
              then some (DOMElementNode.mk t x hi attrs sr cs) else none
            else none : Option DOMElementNode) with
           | some n => some n
           | none => processChildren target ((DOMElementNode.mk t x hi attrs sr cs) :: anc) cs)
        from rfl]
    rw [show preorder anc (.mk t x hi attrs sr cs)
        = ((DOMElementNode.mk t x hi attrs sr cs), anc)
            :: preorderList ((DOMElementNode.mk t x hi attrs sr cs) :: anc) cs from rfl]
    rw [List.find?_cons]
    by_cases hm : matchesTarget target ((DOMElementNode.mk t x hi attrs sr cs), anc) = true
    · have h1 : hi.isSome = true := by
        have := hm
        unfold matchesTarget at this
        exact (Bool.and_eq_true_iff.mp this).1
      have h2 : _hash_dom_element (.mk t x hi attrs sr cs) anc = target := by
        have := hm
        unfold matchesTarget at this
        exact of_decide_eq_true (Bool.and_eq_true_iff.mp this).2
      rw [hm, h1, if_pos h2]
      simp
    · rw [Bool.not_eq_true] at hm
      rw [hm, ih]
      have : (if hi.isSome then
              if _hash_dom_element (.mk t x hi attrs sr cs) anc = target
              then some (DOMElementNode.mk t x hi attrs sr cs) else none
            else none : Option DOMElementNode) = none := by
        unfold matchesTarget at hm
        rw [Bool.and_eq_false_iff] at hm
        rcases hm with hm | hm
        · rw [show DOMElementNode.highlight_index (.mk t x hi attrs sr cs) = hi from rfl] at hm
          rw [hm]
          simp
        · rcases Bool.eq_false_iff.mp hm with h
          cases hhi : hi.isSome
          · simp
          · rw [if_pos rfl, if_neg (of_decide_eq_false hm)]
      rw [this]

theorem processChildren_eq (target : HashedDomElement) (anc : List DOMElementNode) :
    (cs : List DOMElementNode) →
      processChildren target anc cs
        = ((preorderList anc cs).find? (matchesTarget target)).map Prod.fst
  | [] => rfl
  | c :: rest => by
    have ih1 := processNode_eq target anc c
    have ih2 := processChildren_eq target anc rest
    rw [show processChildren target anc (c :: rest)
        = (match processNode target anc c with
           | some r => some r
           | none => processChildren target anc rest) from rfl]
    rw [show preorderList anc (c :: rest) = preorder anc c ++ preorderList anc rest from rfl]
    rw [List.find?_append, ih1, ih2]
    cases hfc : (preorder anc c).find? (matchesTarget target) with
    | none => simp
    | some p => simp
end

end HistoryTreeProcessor

namespace HistoryTreeProcessor

theorem attributesString_cons (kv : String × String) (rest : List (String × String)) :
    attributesString (kv :: rest) = (kv.1 ++ "=" ++ kv.2) ++ attributesString rest := rfl

theorem attributesString_mid (pre post : List (String × String)) (k v : String) :
    (attributesString (pre ++ (k, v) :: post)).data
      = (attributesString pre).data
        ++ (k.data ++ '=' :: v.data)
        ++ (attributesString post).data := by
  induction pre with
  | nil =>
    rw [List.nil_append, attributesString_cons]
    simp only [String.data_append]
    rw [show (attributesString []).data = [] from rfl]
    simp [List.append_assoc]
  | cons kv pre' ih =>
    rw [List.cons_append, attributesString_cons, attributesString_cons]
    simp only [String.data_append, ih, List.append_assoc]

theorem attributesString_ne_of_value_ne (pre post : List (String × String))
    (k v v' : String) (hne : v ≠ v') :
    attributesString (pre ++ (k, v) :: post) ≠ attributesString (pre ++ (k, v') :: post) := by
  intro heq
  apply hne
  have hd := congrArg String.data heq
  rw [attributesString_mid, attributesString_mid] at hd
  have h1 := List.append_cancel_right hd
  have h2 := List.append_cancel_left h1
  have h3 := List.append_cancel_left h2
  have h4 : v.data = v'.data := by injection h3
  exact String.ext h4

/-- The branch path of a node only reads tag names along the chain, so it is
unchanged when the node's non-tag fields (attributes etc.) change. -/
theorem get_parent_branch_path_head_tag
    (t x₁ x₂ : String) (hi₁ hi₂ : Option Nat) (a₁ a₂ : List (String × String))
    (sr₁ sr₂ : Bool) (cs₁ cs₂ : List DOMElementNode) (anc : List DOMElementNode) :
    _get_parent_branch_path ((DOMElementNode.mk t x₁ hi₁ a₁ sr₁ cs₁) :: anc)
      = _get_parent_branch_path ((DOMElementNode.mk t x₂ hi₂ a₂ sr₂ cs₂) :: anc) := by
  rw [get_parent_branch_path_eq_dropLast, get_parent_branch_path_eq_dropLast]
  cases anc with
  | nil => rfl
  | cons a as =>
    rw [List.dropLast_cons₂, List.dropLast_cons₂]
    simp [DOMElementNode.tag_name]

end HistoryTreeProcessor

theorem load_entries_error_of_mem (validate : RawModelOutputDict → Except String AgentOutput)
    (x : RawEntry) (e : String) :
    (l : List RawEntry) → x ∈ l → load_entry validate x = .error e →
      ∃ e', load_entries validate l = .error e'
  | [], hmem, _ => absurd hmem (List.not_mem_nil x)
  | a :: rest, hmem, herr => by
    rw [show load_entries validate (a :: rest)
        = (match load_entry validate a with
           | .error e => .error e
           | .ok entry => (load_entries validate rest).map (entry :: ·)) from rfl]
    rcases List.mem_cons.mp hmem with rfl | hmem'
    · rw [herr]
      exact ⟨e, rfl⟩
    · cases ha : load_entry validate a with
      | error e2 => exact ⟨e2, rfl⟩
      | ok entry =>
        obtain ⟨e', he'⟩ := load_entries_error_of_mem validate x e rest hmem' herr
        rw [he']
        exact ⟨e', rfl⟩

theorem mapM_first_key_of_nonempty (as : List (List (String × String)))
    (h : ∀ a ∈ as, a ≠ []) :
    as.mapM (fun action => (action.map Prod.fst).head?)
      = some (as.map (fun a => (a.map Prod.fst).headD "")) := by
  induction as with
  | nil => rfl
  | cons a rest ih =>
    rw [List.mapM_cons]
    have ha : a ≠ [] := h a (List.mem_cons_self a rest)
    cases a with
    | nil => exact absurd rfl ha
    | cons p as' =>
      rw [ih (fun b hb => h b (List.mem_cons_of_mem _ hb))]
      rfl

/-! ## Concrete examples -/

open HistoryTreeProcessor

/-- An interactable `div`, only child of the root. -/
def exDiv : DOMElementNode := .mk "div" "/html/div" (some 0) [] false []

/-- A root `html` element (its `parent` is `None`). -/
def exHtml : DOMElementNode := .mk "html" "/html" none [] false [exDiv]

/-- First of two sibling anchors with identical tag and attributes. -/
def exChild1 : DOMElementNode := .mk "a" "/body/a[1]" (some 0) [("href", "x")] false []

/-- Second sibling anchor: same tag and attributes, different xpath and
highlight index. -/
def exChild2 : DOMElementNode := .mk "a" "/body/a[2]" (some 1) [("href", "x")] false []

/-- A root holding the two hash-identical siblings. -/
def exBody : DOMElementNode := .mk "body" "/body" none [] false [exChild1, exChild2]

/-- Element whose single attribute value embeds a `=`-pair. -/
def exCollide1 : DOMElementNode := .mk "input" "/body/input[1]" (some 2) [("a", "1b=2")] false []

/-- Element with two attributes whose concatenated `key=value` rendering
coincides with `exCollide1`'s. -/
def exCollide2 : DOMElementNode :=
  .mk "input" "/body/input[2]" (some 3) [("a", "1"), ("b", "2")] false []

/-! ## Claims -/

/-- C1 (corrected, counterexample): the spec says the branch path is the
ancestor tag names from the root down to the immediate parent, excluding the
node.  For `exDiv` (child of the root `exHtml`) that would be `["html"]`, but
the code computes `["div"]`: the walk collects every node whose parent
exists, so it includes the node itself and excludes the root. -/
theorem branch_path_includes_node_excludes_root_cex :
    _get_parent_branch_path [exDiv, exHtml] = ["div"]
    ∧ (convert_dom_element_to_history_element exDiv [exHtml]).entire_parent_branch_path = ["div"]
    ∧ specAncestorPath [exDiv, exHtml] = ["html"]
    ∧ (["div"] : List String) ≠ ["html"] :=
  ⟨rfl, rfl, rfl, by decide⟩

/-- C1 (amended): the branch path of an element — both as hash input and as
the stored `entire_parent_branch_path` — is the ordered sequence of tag names
along the parent chain with the root removed, reversed: it starts at the
root's child and ends at (and includes) the node itself, excluding the root. -/
theorem branch_path_amended :
    (∀ chain : List DOMElementNode,
      _get_parent_branch_path chain = (chain.dropLast.reverse).map DOMElementNode.tag_name)
    ∧ ∀ (n : DOMElementNode) (anc : List DOMElementNode),
      (convert_dom_element_to_history_element n anc).entire_parent_branch_path
        = (((n :: anc).dropLast).reverse).map DOMElementNode.tag_name :=
  ⟨get_parent_branch_path_eq_dropLast,
   fun n anc => get_parent_branch_path_eq_dropLast (n :: anc)⟩

/-- C2 (corrected, counterexample): snapshotting `exChild2` and searching the
same tree does not return `exChild2` — it returns the earlier sibling
`exChild1`, which has the same tag, attributes and branch path (hence the same
hashed identity) but a different xpath and highlight index. -/
theorem find_roundtrip_cex :
    find_history_element_in_tree
      (convert_dom_element_to_history_element exChild2 [exBody]) exBody = some exChild1
    ∧ exChild1 ≠ exChild2 :=
  ⟨rfl, fun h => absurd (congrArg DOMElementNode.highlight_index h) (by decide)⟩

/-- C2 (amended): for a node `n` with a highlight index occurring in the tree,
`find_in_tree(to_snapshot(n), tree)` returns some node of the tree whose
hashed identity equals `n`'s — the first such in document order — but not
necessarily `n` itself. -/
theorem find_roundtrip_amended :
    ∀ (tree n : DOMElementNode) (anc : List DOMElementNode),
      (n, anc) ∈ preorder [] tree →
      n.highlight_index.isSome = true →
      ∃ m ancm,
        (m, ancm) ∈ preorder [] tree
        ∧ find_history_element_in_tree
            (convert_dom_element_to_history_element n anc) tree = some m
        ∧ _hash_dom_element m ancm = _hash_dom_element n anc := by
  intro tree n anc hmem hhi
  have htarget : _hash_dom_history_element (convert_dom_element_to_history_element n anc)
      = _hash_dom_element n anc := hash_convert n anc
  have hsome : ((preorder [] tree).find?
      (matchesTarget (_hash_dom_history_element
        (convert_dom_element_to_history_element n anc)))).isSome := by
    rw [List.find?_isSome]
    refine ⟨(n, anc), hmem, ?_⟩
    unfold matchesTarget
    rw [htarget]
    simp [hhi]
  obtain ⟨p, hp⟩ := Option.isSome_iff_exists.mp hsome
  have hpmem := List.mem_of_find?_eq_some hp
  have hppred := List.find?_some hp
  refine ⟨p.1, p.2, hpmem, ?_, ?_⟩
  · rw [show find_history_element_in_tree (convert_dom_element_to_history_element n anc) tree
        = processNode (_hash_dom_history_element
            (convert_dom_element_to_history_element n anc)) [] tree from rfl,
      processNode_eq, hp]
    rfl
  · unfold matchesTarget at hppred
    have h2 := (Bool.and_eq_true_iff.mp hppred).2
    exact (of_decide_eq_true h2).trans htarget

/-- C2 witness: the amended statement at the concrete duplicate-sibling tree. -/
theorem find_roundtrip_amended_witness :
    ∃ m ancm,
      (m, ancm) ∈ preorder [] exBody
      ∧ find_history_element_in_tree
          (convert_dom_element_to_history_element exChild2 [exBody]) exBody = some m
      ∧ _hash_dom_element m ancm = _hash_dom_element exChild2 [exBody] := by
  apply find_roundtrip_amended exBody exChild2 [exBody]
  · rw [show preorder [] exBody
        = [(exBody, []), (exChild1, [exBody]), (exChild2, [exBody])] from rfl]
    simp
  · rfl

/-- C3 (confirmed): `find_history_element_in_tree` equals the first match, in
pre-order document order, among the nodes carrying a highlight index, of the
snapshot's hashed identity — and `none` (the distinguishable "not found"
result of this total function) when the traversal has no such match. -/
theorem find_in_tree_preorder_first_match :
    ∀ (dhe : DOMHistoryElement) (tree : DOMElementNode),
      find_history_element_in_tree dhe tree
        = ((preorder [] tree).find?
            (matchesTarget (_hash_dom_history_element dhe))).map Prod.fst :=
  fun dhe tree => processNode_eq (_hash_dom_history_element dhe) [] tree

/-- C7 (confirmed): changing the value of one attribute of a snapshotted
element — keys and all other values unchanged — makes the comparison
(`matches`) return `false`, because the `key=value` hash-input strings must
then differ. -/
theorem matches_attribute_value_sensitivity :
    ∀ (tag xp : String) (hi : Option Nat) (sr : Bool) (cs : List DOMElementNode)
      (anc : List DOMElementNode) (pre post : List (String × String)) (k v v' : String),
      v ≠ v' →
      compare_history_element_and_dom_element
        (convert_dom_element_to_history_element
          (.mk tag xp hi (pre ++ (k, v) :: post) sr cs) anc)
        (.mk tag xp hi (pre ++ (k, v') :: post) sr cs) anc = false := by
  intro tag xp hi sr cs anc pre post k v v' hne
  unfold compare_history_element_and_dom_element
  apply decide_eq_false
  intro h
  have hattr := congrArg HashedDomElement.attributes_hash h
  exact attributesString_ne_of_value_ne pre post k v v' hne hattr

/-- C7 witness: sensitivity at a concrete element, value `go` changed to
`stop`. -/
theorem matches_attribute_value_sensitivity_witness :
    compare_history_element_and_dom_element
      (convert_dom_element_to_history_element
        (.mk "input" "/html/input" (some 3) ([] ++ ("id", "go") :: []) false []) [])
      (.mk "input" "/html/input" (some 3) ([] ++ ("id", "stop") :: []) false []) [] = false :=
  matches_attribute_value_sensitivity "input" "/html/input" (some 3) false [] [] [] []
    "id" "go" "stop" (by decide)

/-- C8 (confirmed): the separator-free `key=value` concatenation identifies
the distinct attribute mappings `[("a","1b=2")]` and `[("a","1"),("b","2")]`,
so two elements on the same branch path with these different attribute sets
compare equal — a pre-image collision, with no digest collision involved. -/
theorem attributes_hash_input_collision :
    attributesString [("a", "1b=2")] = attributesString [("a", "1"), ("b", "2")]
    ∧ ([("a", "1b=2")] : List (String × String)) ≠ [("a", "1"), ("b", "2")]
    ∧ compare_history_element_and_dom_element
        (convert_dom_element_to_history_element exCollide1 [exBody]) exCollide2 [exBody] = true
    ∧ exCollide1.attributes ≠ exCollide2.attributes :=
  ⟨by decide, by decide, by decide, by decide⟩

/-- C9 (confirmed): a root element (empty ancestor chain tail) has the empty
branch path, its branch-path hash is the digest of the empty string, and two
roots with equal attribute mappings compare equal whatever their tag names. -/
theorem root_identity_ignores_tag :
    ∀ (e1 e2 : DOMElementNode), e1.attributes = e2.attributes →
      _get_parent_branch_path [e1] = []
      ∧ _hash_dom_element e1 []
          = ⟨sha256_hexdigest "", _attributes_hash e1.attributes⟩
      ∧ compare_history_element_and_dom_element
          (convert_dom_element_to_history_element e1 []) e2 [] = true := by
  intro e1 e2 hattr
  refine ⟨rfl, rfl, ?_⟩
  unfold compare_history_element_and_dom_element
  apply decide_eq_true
  rw [hash_convert]
  unfold _hash_dom_element
  rw [hattr]
  rfl

/-- C9 witness: an `html` root and a `body` root with the same attributes
compare equal despite different tag names. -/
theorem root_identity_ignores_tag_witness :
    _get_parent_branch_path [DOMElementNode.mk "html" "/html" none [("id", "x")] false []] = []
    ∧ _hash_dom_element (DOMElementNode.mk "html" "/html" none [("id", "x")] false []) []
        = ⟨sha256_hexdigest "",
           _attributes_hash (DOMElementNode.mk "html" "/html" none [("id", "x")] false []).attributes⟩
    ∧ compare_history_element_and_dom_element
        (convert_dom_element_to_history_element
          (DOMElementNode.mk "html" "/html" none [("id", "x")] false []) [])
        (DOMElementNode.mk "body" "/body" (some 5) [("id", "x")] true []) [] = true :=
  root_identity_ignores_tag
    (DOMElementNode.mk "html" "/html" none [("id", "x")] false [])
    (DOMElementNode.mk "body" "/body" (some 5) [("id", "x")] true []) (by decide)

/-! ## Ledger claims -/

/-- An all-default result record. -/
def exPlainResult : ActionResult :=
  { is_done := none, extracted_content := none, error := none, include_in_memory := false }

/-- A result whose `error` is the empty string (non-`None` but falsy). -/
def exEmptyErrResult : ActionResult :=
  { is_done := none, extracted_content := none, error := some "", include_in_memory := false }

/-- A plain page-state record. -/
def exState : BrowserStateHistory := { url := "u", screenshot := none, interacted_element := none }

/-- A ledger entry carrying the empty-string error. -/
def exEmptyErrEntry : AgentHistory :=
  { model_output := none, result := exEmptyErrResult, state := exState }

/-- A concrete brain record. -/
def exBrain : AgentBrain := { valuation_previous_goal := "ok", memory := "m", next_goal := "n" }

/-- An entry whose action serializes to a one-key mapping. -/
def exGoodEntry : AgentHistory :=
  { model_output := some { current_state := exBrain, action := { dump := [("click_element", "index=1")] } }
    result := exPlainResult, state := exState }

/-- An entry whose action serializes to an empty mapping (all fields of the
dynamic action model unset, dropped by `exclude_none=True`). -/
def exEmptyActionEntry : AgentHistory :=
  { model_output := some { current_state := exBrain, action := { dump := [] } }
    result := exPlainResult, state := exState }

/-- The caller-supplied decision schema of the counterexample: one registered
action name. -/
def exSchema : List String := ["click_element"]

/-- A raw plain state record. -/
def exRawState : RawState := { url := "u", screenshot := none, interacted_element := none }

/-- A raw ledger entry whose recorded decision is an action name outside the
schema. -/
def exStaleRaw : RawEntry :=
  { model_output := some (.dict { current_state := exBrain, action := [("old_action", "x")] })
    result := exPlainResult, state := exRawState }

/-- C4 (corrected, counterexample): a ledger containing one entry whose
recorded decision is a mapping that matches no action shape of the schema is
not loaded with `decision = none` — re-validation raises, and the whole load
fails. -/
theorem load_stale_decision_fails_cex :
    validateAgentOutput exSchema { current_state := exBrain, action := [("old_action", "x")] }
      = .error "ValidationError"
    ∧ load_from_file (validateAgentOutput exSchema) [exStaleRaw] = .error "ValidationError" :=
  ⟨rfl, rfl⟩

/-- C4 (amended): on deserialization, an absent decision stays `none` and a
present non-mapping decision is degraded to `none`, in both cases with
`result` and `state` kept intact; a mapping decision is re-validated, a
successful validation storing the validated output (never `none`) and a
failed validation failing the load of the whole ledger.  This holds for every
validator, so no validation behaviour of the (absent) action registry makes
the original claim true. -/
theorem load_entry_dict_eq (validate : RawModelOutputDict → Except String AgentOutput)
    (d : RawModelOutputDict) (r : ActionResult) (s : RawState) :
    load_entry validate ⟨some (.dict d), r, s⟩
      = (validate d).map (fun out => ⟨some out, r, loadState s⟩) := rfl

theorem load_from_file_amended :
    ∀ (validate : RawModelOutputDict → Except String AgentOutput)
      (mo : Option RawModelOutput) (r : ActionResult) (s : RawState),
      (mo = none →
        load_entry validate ⟨mo, r, s⟩ = .ok ⟨none, r, loadState s⟩)
      ∧ (mo = some .nonDict →
        load_entry validate ⟨mo, r, s⟩ = .ok ⟨none, r, loadState s⟩)
      ∧ (∀ d out, mo = some (.dict d) → validate d = .ok out →
        load_entry validate ⟨mo, r, s⟩ = .ok ⟨some out, r, loadState s⟩)
      ∧ (∀ d e, mo = some (.dict d) → validate d = .error e →
        load_entry validate ⟨mo, r, s⟩ = .error e
        ∧ ∀ data, (⟨mo, r, s⟩ : RawEntry) ∈ data →
            ∃ e', load_from_file validate data = .error e') := by
  intro validate mo r s
  refine ⟨?_, ?_, ?_, ?_⟩
  · rintro rfl
    rfl
  · rintro rfl
    rfl
  · intro d out hmo hval
    subst hmo
    rw [load_entry_dict_eq, hval]
    rfl
  · intro d e hmo hval
    subst hmo
    have hent : load_entry validate ⟨some (.dict d), r, s⟩ = .error e := by
      rw [load_entry_dict_eq, hval]
      rfl
    refine ⟨hent, ?_⟩
    intro data hmem
    obtain ⟨e', he'⟩ := load_entries_error_of_mem validate ⟨some (.dict d), r, s⟩ e data hmem hent
    refine ⟨e', ?_⟩
    unfold load_from_file
    rw [he']
    rfl

/-- C4 witness: the amended statement's failure branch at the concrete stale
entry and schema. -/
theorem load_from_file_amended_witness :
    load_entry (validateAgentOutput exSchema) exStaleRaw = .error "ValidationError"
    ∧ ∃ e', load_from_file (validateAgentOutput exSchema) [exStaleRaw] = .error e' := by
  have h := (load_from_file_amended (validateAgentOutput exSchema)
      (some (.dict { current_state := exBrain, action := [("old_action", "x")] }))
      exPlainResult exRawState).2.2.2
    { current_state := exBrain, action := [("old_action", "x")] } "ValidationError" rfl rfl
  exact ⟨h.1, h.2 [exStaleRaw] (List.mem_singleton.mpr rfl)⟩

/-- C5 (confirmed): `is_done` is true exactly when the ledger is non-empty
and its last entry's result marks done (`is_done = True`); entries before the
last have no effect on the outcome. -/
theorem is_done_last_entry_only :
    ∀ (es : List AgentHistory),
      ((AgentHistoryList.mk es).is_done = true
        ↔ ∃ e, es.getLast? = some e ∧ e.result.is_done = some true)
      ∧ ∀ (pre : List AgentHistory) (e : AgentHistory),
          (AgentHistoryList.mk (pre ++ [e])).is_done = (AgentHistoryList.mk [e]).is_done := by
  intro es
  constructor
  · unfold AgentHistoryList.is_done
    cases h : es.getLast? with
    | none => simp
    | some e =>
      cases hb : e.result.is_done with
      | none => simp [optBoolTruthy, hb]
      | some b => cases b <;> simp [optBoolTruthy, hb]
  · intro pre e
    unfold AgentHistoryList.is_done
    rw [show (AgentHistoryList.mk (pre ++ [e])).history = pre ++ [e] from rfl,
      show (AgentHistoryList.mk [e]).history = [e] from rfl, List.getLast?_concat]
    rfl

/-- C6 (corrected, counterexample): an entry whose `result.error` is the
empty string — non-`None` — is skipped by `errors()`, because the list
comprehension filters on Python truthiness. -/
theorem errors_drops_empty_string_cex :
    exEmptyErrEntry.result.error = some ""
    ∧ (AgentHistoryList.mk [exEmptyErrEntry]).errors = [] :=
  ⟨rfl, rfl⟩

/-- C6 (amended): `errors()` returns exactly the `result.error` values that
are non-`None` and non-empty, in entry order; `None` entries and empty-string
errors are both skipped. -/
theorem errors_amended :
    ∀ (es : List AgentHistory),
      (AgentHistoryList.mk es).errors
        = ((es.map (fun h => h.result.error)).filterMap id).filter (fun s => !(s == "")) := by
  intro es
  induction es with
  | nil => rfl
  | cons h rest ih =>
    unfold AgentHistoryList.errors at ih ⊢
    rw [show (AgentHistoryList.mk (h :: rest)).history = h :: rest from rfl]
    rw [show (AgentHistoryList.mk rest).history = rest from rfl] at ih
    simp only [List.filterMap_cons, List.map_cons]
    cases he : h.result.error with
    | none => simpa [optStrTruthy] using ih
    | some s =>
      cases hb : (s == "") with
      | true => simpa [optStrTruthy, hb, List.filter_cons] using ih
      | false => simpa [optStrTruthy, hb, List.filter_cons] using ih

/-- C10 (confirmed): when every serialized action mapping is non-empty,
`action_names` returns the first key of each in entry order; on a ledger with
an entry whose action serializes to an empty mapping, the `[0]` index access
faults (modelled as `none`). -/
theorem action_names_first_key_or_fault :
    (∀ l : AgentHistoryList, (∀ a ∈ l.model_actions, a ≠ []) →
      l.action_names = some (l.model_actions.map (fun a => (a.map Prod.fst).headD "")))
    ∧ (AgentHistoryList.mk [exEmptyActionEntry]).action_names = none :=
  ⟨fun l h => mapM_first_key_of_nonempty l.model_actions h, rfl⟩

/-- C10 witness: the total branch at a concrete one-entry ledger. -/
theorem action_names_first_key_or_fault_witness :
    (AgentHistoryList.mk [exGoodEntry]).action_names = some ["click_element"] := by
  rw [action_names_first_key_or_fault.1 (AgentHistoryList.mk [exGoodEntry]) (by decide)]
  rfl
